import Mathlib

/-!
Verification of the program security-metadata extractor
(`src/tools/security.ts` and `src/actions/security/getSecurityTxt.ts`).

The TypeScript source is shallowly embedded here:
* byte buffers become `List Nat` (each entry a byte value),
* decoded text becomes `List Char` (produced by a WHATWG-style lossy
  UTF-8 decoder mirroring `TextDecoder`),
* the JavaScript object holding security.txt fields becomes an
  insertion-ordered association list `List (String × String)`,
* `connection.getAccountInfo` becomes an abstract fetch function
  `List Nat → Option AccountInfo`,
* thrown `Error` values become `Except String` with the exact thrown
  message strings.

Each regular expression of the source is translated into an executable
search function implementing the JavaScript engine's semantics
(leftmost match, ordered alternation, greedy/lazy quantifiers) for that
concrete pattern.  Case-insensitive (`/i`) comparisons are modelled at
ASCII granularity, which is exact for all pattern literals involved.
-/

/-- Convert a string literal to the character list used by the model. -/
def sl (s : String) : List Char := s.data

/-- Bytes of an ASCII string, used to build concrete byte-buffer inputs. -/
def asciiBytes (s : String) : List Nat := s.data.map Char.toNat

/-- ASCII lower-casing, modelling the case folding used by the `/i`
regular-expression flag and `String.prototype.toLowerCase` on the
ASCII inputs handled here. -/
def asciiLower (c : Char) : Char :=
  if 'A' ≤ c ∧ c ≤ 'Z' then Char.ofNat (c.toNat + 32) else c

/-- ASCII upper-casing, modelling `toUpperCase` on an `[a-z]` character
(the only characters the source upper-cases, in kebab→camel folding). -/
def asciiUpper (c : Char) : Char :=
  if 'a' ≤ c ∧ c ≤ 'z' then Char.ofNat (c.toNat - 32) else c

/-- The JavaScript whitespace set recognized by `\s` and by
`String.prototype.trim`. -/
def jsWsChars : List Char :=
  [' ', '\t', '\n', '\r', '\x0b', '\x0c', ' ', '﻿', ' ',
   ' ', ' ', ' ', ' ', ' ', ' ', ' ',
   ' ', ' ', ' ', ' ', ' ', ' ', ' ',
   ' ', '　']

/-- Whether a character is JavaScript whitespace. -/
def isJsWs (c : Char) : Bool := jsWsChars.contains c

/-- JavaScript `String.prototype.trim`: drop whitespace on both ends. -/
def trimChars (l : List Char) : List Char :=
  ((l.dropWhile isJsWs).reverse.dropWhile isJsWs).reverse

/-- Characters matched by the JavaScript regex `.` (dot): everything
except line terminators. -/
def isDotChar (c : Char) : Bool :=
  !(c = '\n' || c = '\r' || c = ' ' || c = ' ')

/-- Case-sensitive literal-prefix stripping: if `p` is a prefix of `l`,
return the remainder. -/
def stripPre : List Char → List Char → Option (List Char)
  | [], l => some l
  | _ :: _, [] => none
  | p :: ps, c :: cs => if p = c then stripPre ps cs else none

/-- ASCII-case-insensitive literal-prefix stripping, modelling a
literal matched under the `/i` flag. -/
def stripPreCI : List Char → List Char → Option (List Char)
  | [], l => some l
  | _ :: _, [] => none
  | p :: ps, c :: cs => if asciiLower p = asciiLower c then stripPreCI ps cs else none

/-- Whether the literal `p` occurs (case-sensitively) anywhere in `l`. -/
def occursSub (p : List Char) : List Char → Bool
  | [] => (stripPre p ([] : List Char)).isSome
  | c :: rest => (stripPre p (c :: rest)).isSome || occursSub p rest

/-- Index of the first (case-sensitive) occurrence of `p` in `l`. -/
def subIdx (p : List Char) : List Char → Option Nat
  | [] => if (stripPre p ([] : List Char)).isSome then some 0 else none
  | c :: rest =>
    if (stripPre p (c :: rest)).isSome then some 0
    else (subIdx p rest).map (· + 1)

/-- Whether `l` starts with `p` up to ASCII case. -/
def startsWithCI (p l : List Char) : Bool := (stripPreCI p l).isSome

/-- Splitting on newline characters, modelling `content.split('\n')`
(empty segments preserved). -/
def splitLines : List Char → List (List Char)
  | [] => [[]]
  | c :: rest =>
    if c = '\n' then [] :: splitLines rest
    else
      match splitLines rest with
      | [] => [[c]]
      | l :: ls => (c :: l) :: ls

/-- The replacement character emitted by a lossy decode. -/
def replChar : Char := Char.ofNat 0xFFFD

/-- Whether a byte is a UTF-8 continuation byte (`0x80`–`0xBF`). -/
def isCont (b : Nat) : Bool := 0x80 ≤ b && b ≤ 0xBF

/-- Valid range of the first continuation byte of a three-byte
sequence, per the WHATWG UTF-8 decoder. -/
def cont3Ok (b b1 : Nat) : Bool :=
  if b = 0xE0 then 0xA0 ≤ b1 && b1 ≤ 0xBF
  else if b = 0xED then 0x80 ≤ b1 && b1 ≤ 0x9F
  else isCont b1

/-- Valid range of the first continuation byte of a four-byte
sequence, per the WHATWG UTF-8 decoder. -/
def cont4Ok (b b1 : Nat) : Bool :=
  if b = 0xF0 then 0x90 ≤ b1 && b1 ≤ 0xBF
  else if b = 0xF4 then 0x80 ≤ b1 && b1 ≤ 0x8F
  else isCont b1

/-- One step of the WHATWG UTF-8 decoder: given a lead byte and the
following bytes, produce the decoded character (or U+FFFD) and how
many of the following bytes were consumed; an invalid byte is left
unconsumed so it is reprocessed, as the WHATWG algorithm prescribes. -/
def utf8Step (b : Nat) (rest : List Nat) : Char × Nat :=
  if b < 0x80 then (Char.ofNat b, 0)
  else if b < 0xC2 then (replChar, 0)
  else if b < 0xE0 then
    match rest with
    | [] => (replChar, 0)
    | b1 :: _ =>
      if isCont b1 then (Char.ofNat ((b - 0xC0) * 64 + (b1 - 0x80)), 1)
      else (replChar, 0)
  else if b < 0xF0 then
    match rest with
    | [] => (replChar, 0)
    | b1 :: r1 =>
      if cont3Ok b b1 then
        match r1 with
        | [] => (replChar, 1)
        | b2 :: _ =>
          if isCont b2 then
            (Char.ofNat ((b - 0xE0) * 4096 + (b1 - 0x80) * 64 + (b2 - 0x80)), 2)
          else (replChar, 1)
      else (replChar, 0)
  else if b < 0xF5 then
    match rest with
    | [] => (replChar, 0)
    | b1 :: r1 =>
      if cont4Ok b b1 then
        match r1 with
        | [] => (replChar, 1)
        | b2 :: r2 =>
          if isCont b2 then
            match r2 with
            | [] => (replChar, 2)
            | b3 :: _ =>
              if isCont b3 then
                (Char.ofNat ((b - 0xF0) * 262144 + (b1 - 0x80) * 4096 +
                    (b2 - 0x80) * 64 + (b3 - 0x80)), 3)
              else (replChar, 2)
          else (replChar, 1)
      else (replChar, 0)
  else (replChar, 0)

/-- Worker of the lossy decoder; the fuel only bounds the recursion
(each step consumes at least one byte, so a fuel equal to the number
of bytes is never exhausted). -/
def utf8Go : Nat → List Nat → List Char
  | 0, _ => []
  | _ + 1, [] => []
  | fuel + 1, b :: rest =>
    let s := utf8Step b rest
    s.1 :: utf8Go fuel (rest.drop s.2)

/-- Lossy UTF-8 decoding as performed by `new TextDecoder().decode`:
the WHATWG decoder, emitting U+FFFD for invalid sequences. -/
def utf8DecodeLossy (l : List Nat) : List Char := utf8Go l.length l

/-- The security.txt field mapping: a JavaScript object modelled as an
insertion-ordered association list with unique keys. -/
abbrev SecurityInfo := List (String × String)

/-- JavaScript object assignment `result[key] = value`: overwrite in
place if the key exists, else append. -/
def objInsert (k v : String) : SecurityInfo → SecurityInfo
  | [] => [(k, v)]
  | (k', v') :: rest => if k' = k then (k, v) :: rest else (k', v') :: objInsert k v rest

/-- Split a line at its first colon, requiring at least one character
before it; models the `^([^:]+):` part of the line regex. -/
def breakColon : List Char → Option (List Char × List Char)
  | [] => none
  | c :: rest =>
    if c = ':' then some ([], rest)
    else (breakColon rest).map (fun fr => (c :: fr.1, fr.2))

/-- Matching one line against `/^([^:]+):\s*(.*)$/`: field before the
first colon (nonempty), then greedy whitespace, then a dot-character
run reaching the end of the line.  Returns `(field, value)` captures. -/
def lineMatch (line : List Char) : Option (List Char × List Char) :=
  match breakColon line with
  | none => none
  | some (field, rest) =>
    if field = [] then none
    else
      let value := rest.dropWhile isJsWs
      if value.all isDotChar then some (field, value) else none

/-- Kebab-case to camelCase folding: each dash followed by a lowercase
letter is replaced by the upper-cased letter, scanning left to right
(the source's global replace of dash-lowercase-letter groups). -/
def camelize : List Char → List Char
  | [] => []
  | '-' :: c :: rest =>
    if 'a' ≤ c ∧ c ≤ 'z' then asciiUpper c :: camelize rest
    else '-' :: camelize (c :: rest)
  | c :: rest => c :: camelize rest

/-- One iteration of the `parseSecurityTxt` loop body over a line. -/
def parseLine (acc : SecurityInfo) (line : List Char) : SecurityInfo :=
  let t := trimChars line
  if t = [] ∨ t.head? = some '#' then acc
  else
    match lineMatch line with
    | none => acc
    | some (field, value) =>
      let fieldName := (trimChars field).map asciiLower
      let camelCaseField := camelize fieldName
      objInsert (String.mk camelCaseField) (String.mk (trimChars value)) acc

/-- The field normalizer `parseSecurityTxt`: split the captured block
into lines, skip blank and comment lines, and insert each
`field: value` line under its camelCase-folded key. -/
def parseSecurityTxt (content : List Char) : SecurityInfo :=
  (splitLines content).foldl parseLine []

/-- Literal token of the standard-block header regex. -/
def secTxtLit : List Char := sl "security.txt"

/-- Step of the header match after the newline-or-end test: the part
after the header line's newline becomes the capture region start. -/
def checkNlEnd : List Char → Option (List Char)
  | [] => some []
  | c :: r => if c = '\n' then some r else none

/-- Match of the header fragment after the hash mark: an optional
single space (greedy, and exclusive with the no-space alternative
since a space can never start the literal), the case-insensitive
literal, then newline or end of text. -/
def hdrAfterHash (rest : List Char) : Option (List Char) :=
  match rest with
  | ' ' :: r => (stripPreCI secTxtLit r).bind checkNlEnd
  | _ => (stripPreCI secTxtLit rest).bind checkNlEnd

/-- Attempt to match the standard-block header at one position:
a hash mark followed by the header fragment.  Returns the start of
the capture region. -/
def matchHeaderAt : List Char → Option (List Char)
  | [] => none
  | c :: rest => if c = '#' then hdrAfterHash rest else none

/-- Lazy capture of the standard block: characters up to the first
blank line, the first newline-hash, or the end of text. -/
def captureStd : List Char → List Char
  | [] => []
  | c :: rest =>
    if c = '\n' then
      match rest with
      | c2 :: _ => if c2 = '\n' ∨ c2 = '#' then [] else c :: captureStd rest
      | [] => c :: captureStd rest
    else c :: captureStd rest

/-- Scan for a newline followed by a header match, in text order. -/
def searchNl : List Char → Option (List Char)
  | [] => none
  | c :: rest =>
    if c = '\n' then
      match matchHeaderAt rest with
      | some r => some (captureStd r)
      | none => searchNl rest
    else searchNl rest

/-- Leftmost match of the standard-block pattern (anchored at the
start of text or after a newline); returns the captured block. -/
def searchStandard (l : List Char) : Option (List Char) :=
  match matchHeaderAt l with
  | some r => some (captureStd r)
  | none => searchNl l

/-- Opening marker of the delimited-block pattern. -/
def beginMark : List Char := sl "-----BEGIN SECURITY.TXT-----"

/-- Closing marker of the delimited-block pattern. -/
def endMark : List Char := sl "-----END SECURITY.TXT-----"

/-- Lazy capture up to the first case-insensitive occurrence of `p`;
fails when `p` never occurs. -/
def captureUntilCI (p : List Char) : List Char → Option (List Char)
  | [] => if (stripPreCI p ([] : List Char)).isSome then some [] else none
  | c :: rest =>
    if (stripPreCI p (c :: rest)).isSome then some []
    else (captureUntilCI p rest).map (fun cap => c :: cap)

/-- Leftmost match of the delimited-block pattern; returns the text
between the markers. -/
def searchDelim : List Char → Option (List Char)
  | [] => none
  | c :: rest =>
    match stripPreCI beginMark (c :: rest) with
    | some r =>
      match captureUntilCI endMark r with
      | some cap => some cap
      | none => searchDelim rest
    | none => searchDelim rest

/-- Leftmost match of a case-insensitive field label followed by at
least one non-newline character; returns the greedy capture of the
rest of that line. -/
def searchField (pref : List Char) : List Char → Option (List Char)
  | [] => none
  | c :: rest =>
    match stripPreCI pref (c :: rest) with
    | some r =>
      match r.takeWhile (fun ch => ch ≠ '\n') with
      | [] => searchField pref rest
      | cap => some cap
    | none => searchField pref rest

/-- Letter class of the top-level-domain fragment. -/
def isAl (c : Char) : Bool := ('a' ≤ c && c ≤ 'z') || ('A' ≤ c && c ≤ 'Z')

/-- Digit class. -/
def isDig (c : Char) : Bool := '0' ≤ c && c ≤ '9'

/-- The domain character class of the source's patterns:
letters, digits, dot, hyphen. -/
def isDomC (c : Char) : Bool := isAl c || isDig c || c = '.' || c = '-'

/-- The local-part character class of the email patterns. -/
def isLocC (c : Char) : Bool :=
  isAl c || isDig c || c = '.' || c = '_' || c = '%' || c = '+' || c = '-'

/-- Backtracking split of the greedy domain run: try the split point
for the literal dot from the largest candidate downward; at each
candidate require at least two letters and then the (case-sensitive)
trailing literal.  Returns the total number of characters consumed. -/
def tryDomSplit (l after : List Char) : Nat → Option Nat
  | 0 => none
  | n + 1 =>
    match l.drop (n + 1) with
    | '.' :: u =>
      let r := (u.takeWhile isAl).length
      if 2 ≤ r ∧ (stripPre after (u.drop r)).isSome then
        some (n + 1 + 1 + r + after.length)
      else tryDomSplit l after n
    | _ => tryDomSplit l after n

/-- Match of the domain fragment (domain run, dot, at least two
letters) followed by a literal, at the start of `l`; returns the
number of characters consumed. -/
def domTld (after l : List Char) : Option Nat :=
  let m := (l.takeWhile isDomC).length
  if m = 0 then none else tryDomSplit l after (m - 1)

/-- Match of the email fragment (local part, at sign, domain
fragment) at the start of `l`; returns characters consumed. -/
def matchEmailAt (l : List Char) : Option Nat :=
  let loc := l.takeWhile isLocC
  if loc = [] then none
  else
    match l.drop loc.length with
    | '@' :: u => (domTld [] u).map (fun n => loc.length + 1 + n)
    | _ => none

/-- Leftmost case-insensitive match of the single-field pattern for a
bare mailto URI; the capture is the address without the scheme. -/
def searchMailtoCap : List Char → Option (List Char)
  | [] => none
  | c :: rest =>
    match stripPreCI (sl "mailto:") (c :: rest) with
    | some r =>
      match matchEmailAt r with
      | some n => some (r.take n)
      | none => searchMailtoCap rest
    | none => searchMailtoCap rest

/-- The single-field matcher: the ordered alternatives of the source's
third pattern, each searched over the whole text. -/
def fieldMatch (s : List Char) : Option (List Char) :=
  match searchField (sl "contact: ") s with
  | some v => some v
  | none =>
    match searchField (sl "security-contact: ") s with
    | some v => some v
    | none => searchMailtoCap s

/-- Leftmost case-sensitive match of a security-tagged email address
in the heuristic scanner; returns the whole matched text. -/
def heurSecEmail : List Char → Option (List Char)
  | [] => none
  | c :: rest =>
    match stripPre (sl "security@") (c :: rest) with
    | some r =>
      match domTld [] r with
      | some n => some ((sl "security@") ++ r.take n)
      | none => heurSecEmail rest
    | none => heurSecEmail rest

/-- Leftmost case-sensitive match of a full mailto URI in the
heuristic scanner; returns the whole matched text. -/
def heurMailto : List Char → Option (List Char)
  | [] => none
  | c :: rest =>
    match stripPre (sl "mailto:") (c :: rest) with
    | some r =>
      match matchEmailAt r with
      | some n => some ((sl "mailto:") ++ r.take n)
      | none => heurMailto rest
    | none => heurMailto rest

/-- Match of a URL with the given path literal at one position:
the scheme (greedy optional s), the domain fragment, the path. -/
def matchUrlAt (path l : List Char) : Option (List Char) :=
  match stripPre (sl "https://") l with
  | some r => (domTld path r).map (fun n => (sl "https://") ++ r.take n)
  | none =>
    match stripPre (sl "http://") l with
    | some r => (domTld path r).map (fun n => (sl "http://") ++ r.take n)
    | none => none

/-- Leftmost match of a URL pattern ending in the given path. -/
def heurUrl (path : List Char) : List Char → Option (List Char)
  | [] => none
  | c :: rest =>
    match matchUrlAt path (c :: rest) with
    | some m => some m
    | none => heurUrl path rest

/-- Opening marker of the PGP block pattern. -/
def pgpBegin : List Char := sl "-----BEGIN PGP PUBLIC KEY BLOCK-----"

/-- Closing marker of the PGP block pattern. -/
def pgpEnd : List Char := sl "-----END PGP PUBLIC KEY BLOCK-----"

/-- Whether a PGP public-key block (both markers, in order,
case-sensitively as in the source pattern) occurs in the text. -/
def hasPgpBlock : List Char → Bool
  | [] => false
  | c :: rest =>
    match stripPre pgpBegin (c :: rest) with
    | some r => if occursSub pgpEnd r then true else hasPgpBlock rest
    | none => hasPgpBlock rest

/-- First element of the source's concatenated heuristic match lists:
the first match of the first pattern, in the fixed source order, that
matches anywhere in the text. -/
def heurContact (s : List Char) : Option (List Char) :=
  match heurSecEmail s with
  | some m => some m
  | none =>
    match heurMailto s with
    | some m => some m
    | none =>
      match heurUrl (sl "/security") s with
      | some m => some m
      | none =>
        match heurUrl (sl "/responsible-disclosure") s with
        | some m => some m
        | none => heurUrl (sl "/vulnerability") s

/-- The fixed sentinel stored when a PGP block is present. -/
def pgpSentinel : String := "PGP key found in program data"

/-- The heuristic fallback scanner `extractSecurityInfoFromText`. -/
def extractSecurityInfoFromText (text : List Char) : SecurityInfo :=
  let result : SecurityInfo :=
    match heurContact text with
    | some m => [("contact", String.mk m)]
    | none => []
  if hasPgpBlock text then objInsert "encryption" pgpSentinel result
  else result

/-- Drop a match whose capture is empty, modelling the falsy test on
the captured group in the source's first two patterns. -/
def nonEmptyCap : Option (List Char) → Option (List Char)
  | some [] => none
  | x => x

/-- The pattern cascade of `findAndParseSecurityTxt`, applied to the
decoded text: standard block, delimited block, single field, then the
heuristic fallback; the first two require a nonempty capture. -/
def findAndParseText (s : List Char) : SecurityInfo :=
  match nonEmptyCap (searchStandard s) with
  | some cap => parseSecurityTxt cap
  | none =>
    match nonEmptyCap (searchDelim s) with
    | some cap => parseSecurityTxt cap
    | none =>
      match fieldMatch s with
      | some v => [("contact", String.mk (trimChars v))]
      | none => extractSecurityInfoFromText s

/-- The source's `findAndParseSecurityTxt`: decode the program bytes,
then run the cascade. -/
def findAndParseSecurityTxt (programData : List Nat) : SecurityInfo :=
  findAndParseText (utf8DecodeLossy programData)

/-- A fetched account: its owner identity and raw data bytes. -/
structure AccountInfo where
  owner : String
  data : List Nat
deriving DecidableEq

/-- The well-known upgradeable-loader identity. -/
def BPF_UPGRADEABLE_LOADER_ID : String :=
  "BPFLoaderUpgradeab1e11111111111111111111111"

/-- The source's `getSecurityTxtInfo`: resolve the account layout
(direct, or indirected through the program-data account), then run
the cascade on the resolved bytes.  `connection` abstracts
`getAccountInfo`; thrown errors become `Except.error` with the thrown
message. -/
def getSecurityTxtInfo (programId : List Nat)
    (connection : List Nat → Option AccountInfo) : Except String SecurityInfo :=
  match connection programId with
  | none => Except.error "Program account not found"
  | some programAccount =>
    if programAccount.owner = BPF_UPGRADEABLE_LOADER_ID then
      if (programAccount.data.take 4).head? = some 2 then
        match connection ((programAccount.data.drop 4).take 32) with
        | none => Except.error "Program data account not found"
        | some programDataAccount =>
          Except.ok (findAndParseSecurityTxt (programDataAccount.data.drop 8))
      else Except.error "Not a valid upgradeable program account"
    else Except.ok (findAndParseSecurityTxt programAccount.data)

/-- The action result surfaced by the handler. -/
structure ActionResult where
  status : String
  info : Option SecurityInfo
  message : String
deriving DecidableEq

/-- The handler of the `GET_SECURITY_TXT` action: error status on a
thrown error, warning on an empty mapping, success otherwise. -/
def getSecurityTxtHandler (programId : List Nat)
    (connection : List Nat → Option AccountInfo) : ActionResult :=
  match getSecurityTxtInfo programId connection with
  | Except.error msg =>
    { status := "error", info := none
      message := "Failed to get security.txt info: " ++ msg }
  | Except.ok securityInfo =>
    if securityInfo.length = 0 then
      { status := "warning", info := none
        message := "No security.txt information found for this program" }
    else
      { status := "success", info := some securityInfo
        message := "Successfully retrieved security.txt information" }

/-- A nonempty capture survives the falsy test on the captured group. -/
theorem nonEmptyCap_some (cap : List Char) (h : cap ≠ []) :
    nonEmptyCap (some cap) = some cap := by
  cases cap with
  | nil => exact absurd rfl h
  | cons a l => rfl

/-- The byte buffer of the specification's standard-block scenario. -/
def scenarioBytes : List Nat :=
  asciiBytes "\n# security.txt\ncontact: mailto:sec@example.com\nexpires: 2025-01-01\n\n"

/-- A connection serving the scenario bytes for a directly-owned
program account. -/
def scenarioConn : List Nat → Option AccountInfo := fun a =>
  if a = [7] then some ⟨"SomeOtherOwner11111111111111111111111111111", scenarioBytes⟩ else none

/-- C1: a byte buffer whose decoded text contains a valid standard
block is parsed to exactly that block's normalized key/value pairs,
kebab-case keys folded to camelCase; on the scenario bytes the result
is the contact/expires mapping and the surfaced status is success. -/
theorem standardBlock_extraction :
    (∀ (data : List Nat) (cap : List Char),
      searchStandard (utf8DecodeLossy data) = some cap → cap ≠ [] →
      findAndParseSecurityTxt data = parseSecurityTxt cap) ∧
    findAndParseSecurityTxt scenarioBytes =
      [("contact", "mailto:sec@example.com"), ("expires", "2025-01-01")] ∧
    parseSecurityTxt (sl "preferred-languages: en") = [("preferredLanguages", "en")] ∧
    getSecurityTxtHandler [7] scenarioConn =
      { status := "success",
        info := some [("contact", "mailto:sec@example.com"), ("expires", "2025-01-01")],
        message := "Successfully retrieved security.txt information" } := by
  refine ⟨?_, by decide, by decide, by decide⟩
  intro data cap h1 h2
  simp [findAndParseSecurityTxt, findAndParseText, h1, nonEmptyCap_some cap h2]

/-- Witness for C1 at the scenario bytes. -/
theorem standardBlock_extraction_witness :
    findAndParseSecurityTxt scenarioBytes =
      parseSecurityTxt (sl "contact: mailto:sec@example.com\nexpires: 2025-01-01") :=
  standardBlock_extraction.1 scenarioBytes
    (sl "contact: mailto:sec@example.com\nexpires: 2025-01-01") (by decide) (by decide)

/-- Little-endian reading of a four-byte tag, as the claim describes
the account-type field. -/
def leU32 : List Nat → Nat
  | b0 :: b1 :: b2 :: b3 :: _ => b0 + 256 * b1 + 65536 * b2 + 16777216 * b3
  | _ => 0

/-- A connection whose primary account carries first bytes 2,1,0,0
(little-endian tag 258) and whose program-data account exists. -/
def cx2Conn : List Nat → Option AccountInfo := fun a =>
  if a = [1] then
    some ⟨BPF_UPGRADEABLE_LOADER_ID, [2, 1, 0, 0] ++ List.replicate 32 9⟩
  else if a = List.replicate 32 9 then some ⟨BPF_UPGRADEABLE_LOADER_ID, []⟩
  else none

/-- Counterexample to C2: the little-endian value of the first four
data bytes is 258, not 2, yet the call does not fail with the
invalid-layout error — it proceeds to the program-data account and
returns a mapping, because the source checks only the first byte. -/
theorem upgradeable_leTag_counterexample :
    leU32 (([2, 1, 0, 0] ++ List.replicate 32 9).take 4) = 258 ∧ (258 : Nat) ≠ 2 ∧
    getSecurityTxtInfo [1] cx2Conn = Except.ok [] := by
  exact ⟨by decide, by decide, rfl⟩

/-- C2 as amended: the layout check examines only the first data byte;
the call fails with the invalid-layout error exactly when that byte is
absent or differs from 2, regardless of the rest of the tag bytes. -/
theorem upgradeable_firstByte_tag_check (pid : List Nat)
    (conn : List Nat → Option AccountInfo) (acct : AccountInfo)
    (h1 : conn pid = some acct) (h2 : acct.owner = BPF_UPGRADEABLE_LOADER_ID) :
    ((acct.data.take 4).head? ≠ some 2 →
      getSecurityTxtInfo pid conn = Except.error "Not a valid upgradeable program account") ∧
    ((acct.data.take 4).head? = some 2 →
      getSecurityTxtInfo pid conn ≠ Except.error "Not a valid upgradeable program account") := by
  constructor
  · intro h3
    simp [getSecurityTxtInfo, h1, h2, h3]
  · intro h3
    simp only [getSecurityTxtInfo, h1, h2, if_pos rfl, h3, if_pos]
    cases conn ((acct.data.drop 4).take 32) <;> simp

/-- A connection for the C2 witness: loader-owned account whose first
data byte is 3. -/
def w2Conn : List Nat → Option AccountInfo := fun a =>
  if a = [0] then some ⟨BPF_UPGRADEABLE_LOADER_ID, [3]⟩ else none

/-- Witness for the amended C2. -/
theorem upgradeable_firstByte_tag_check_witness :
    getSecurityTxtInfo [0] w2Conn = Except.error "Not a valid upgradeable program account" :=
  (upgradeable_firstByte_tag_check [0] w2Conn ⟨BPF_UPGRADEABLE_LOADER_ID, [3]⟩ rfl rfl).1
    (by decide)

/-- C3: a loader-owned account with a valid tag whose pointed-to
program-data account is absent fails with the account-not-found
error, and the handler surfaces status error, not warning. -/
theorem programData_absent_accountNotFound (pid : List Nat)
    (conn : List Nat → Option AccountInfo) (acct : AccountInfo)
    (h1 : conn pid = some acct) (h2 : acct.owner = BPF_UPGRADEABLE_LOADER_ID)
    (h3 : (acct.data.take 4).head? = some 2)
    (h4 : conn ((acct.data.drop 4).take 32) = none) :
    getSecurityTxtInfo pid conn = Except.error "Program data account not found" ∧
    (getSecurityTxtHandler pid conn).status = "error" := by
  have hg : getSecurityTxtInfo pid conn = Except.error "Program data account not found" := by
    simp [getSecurityTxtInfo, h1, h2, h3, h4]
  exact ⟨hg, by simp [getSecurityTxtHandler, hg]⟩

/-- A connection for the C3 witness: valid tag, absent program-data
account. -/
def w3Conn : List Nat → Option AccountInfo := fun a =>
  if a = [1] then some ⟨BPF_UPGRADEABLE_LOADER_ID, 2 :: List.replicate 35 0⟩ else none

/-- Witness for C3. -/
theorem programData_absent_accountNotFound_witness :
    getSecurityTxtInfo [1] w3Conn = Except.error "Program data account not found" ∧
    (getSecurityTxtHandler [1] w3Conn).status = "error" :=
  programData_absent_accountNotFound [1] w3Conn ⟨BPF_UPGRADEABLE_LOADER_ID, 2 :: List.replicate 35 0⟩
    rfl rfl (by decide) (by decide)

/-- C4: the bytes handed to the pattern search are the account data
unchanged for a non-loader owner, and otherwise the program-data
account (addressed by the 32-byte window at data offset 4) with
exactly its first 8 bytes stripped. -/
theorem programImageBytes_derivation :
    (∀ (pid : List Nat) (conn : List Nat → Option AccountInfo) (acct : AccountInfo),
      conn pid = some acct → acct.owner ≠ BPF_UPGRADEABLE_LOADER_ID →
      getSecurityTxtInfo pid conn = Except.ok (findAndParseSecurityTxt acct.data)) ∧
    (∀ (pid : List Nat) (conn : List Nat → Option AccountInfo) (acct pd : AccountInfo),
      conn pid = some acct → acct.owner = BPF_UPGRADEABLE_LOADER_ID →
      (acct.data.take 4).head? = some 2 →
      conn ((acct.data.drop 4).take 32) = some pd →
      getSecurityTxtInfo pid conn = Except.ok (findAndParseSecurityTxt (pd.data.drop 8))) := by
  constructor
  · intro pid conn acct h1 h2
    simp [getSecurityTxtInfo, h1, h2]
  · intro pid conn acct pd h1 h2 h3 h4
    simp [getSecurityTxtInfo, h1, h2, h3, h4]

/-- A connection for the C4 witness: loader-owned account pointing at
a program-data account whose post-header bytes hold a contact line. -/
def w4Conn : List Nat → Option AccountInfo := fun a =>
  if a = [5] then
    some ⟨BPF_UPGRADEABLE_LOADER_ID, [2, 0, 0, 0] ++ List.replicate 32 7⟩
  else if a = List.replicate 32 7 then
    some ⟨BPF_UPGRADEABLE_LOADER_ID, List.replicate 8 0 ++ asciiBytes "Contact: x@y.zz"⟩
  else none

/-- Witness for C4 on the indirected branch. -/
theorem programImageBytes_derivation_witness :
    getSecurityTxtInfo [5] w4Conn =
      Except.ok (findAndParseSecurityTxt
        ((List.replicate 8 0 ++ asciiBytes "Contact: x@y.zz").drop 8)) :=
  programImageBytes_derivation.2 [5] w4Conn
    ⟨BPF_UPGRADEABLE_LOADER_ID, [2, 0, 0, 0] ++ List.replicate 32 7⟩
    ⟨BPF_UPGRADEABLE_LOADER_ID, List.replicate 8 0 ++ asciiBytes "Contact: x@y.zz"⟩
    rfl rfl (by decide) (by decide)

/-- C5: when the standard-block matcher yields a nonempty capture, the
result is that block's parse alone, even when a bare contact line also
occurs in the text — the cascade stops at the first match and never
merges matchers. -/
theorem cascade_standard_over_contact (s cap : List Char)
    (h1 : searchStandard s = some cap) (h2 : cap ≠ [])
    (_h3 : searchField (sl "contact: ") s ≠ none) :
    findAndParseText s = parseSecurityTxt cap := by
  simp [findAndParseText, h1, nonEmptyCap_some cap h2]

/-- Text of the C5 witness: a bare contact line before a standard
block. -/
def w5Text : List Char := sl "Contact: x@y.zz\n# security.txt\nexpires: 2030\n\n"

/-- Witness for C5. -/
theorem cascade_standard_over_contact_witness :
    findAndParseText w5Text = parseSecurityTxt (sl "expires: 2030") ∧
    parseSecurityTxt (sl "expires: 2030") = [("expires", "2030")] :=
  ⟨cascade_standard_over_contact w5Text (sl "expires: 2030") (by decide) (by decide) (by decide),
   by decide⟩

/-- Text of the C7 counterexample: the contact label occurs mid-line
only. -/
def cx7Text : List Char := sl "foo Contact: hi"

/-- Counterexample to C7: no line of the text begins with a contact
label and no mailto URI is present, so the claimed line-anchored
matcher would find nothing (and the heuristic fallback finds nothing
either), yet the extractor returns a contact taken from the mid-line
occurrence — the source's pattern is not line-anchored. -/
theorem singleField_midline_counterexample :
    (splitLines cx7Text).all
      (fun l => !(startsWithCI (sl "contact:") l || startsWithCI (sl "security-contact:") l)) =
      true ∧
    searchMailtoCap cx7Text = none ∧
    extractSecurityInfoFromText cx7Text = [] ∧
    findAndParseText cx7Text = [("contact", "hi")] := by
  exact ⟨by decide, by decide, by decide, by decide⟩

/-- C7 as amended: when neither block form yields a nonempty capture,
the single-field matcher searches anywhere in the text (not only at
line starts) for the contact label, then the security-contact label,
then a mailto URI, in that priority order, and returns a mapping with
only the contact key set to the trimmed captured value. -/
theorem singleField_matcher_behavior :
    (∀ (s v : List Char),
      nonEmptyCap (searchStandard s) = none → nonEmptyCap (searchDelim s) = none →
      fieldMatch s = some v →
      findAndParseText s = [("contact", String.mk (trimChars v))]) ∧
    (∀ (s v : List Char), searchField (sl "contact: ") s = some v → fieldMatch s = some v) ∧
    (∀ (s v : List Char), searchField (sl "contact: ") s = none →
      searchField (sl "security-contact: ") s = some v → fieldMatch s = some v) ∧
    (∀ (s v : List Char), searchField (sl "contact: ") s = none →
      searchField (sl "security-contact: ") s = none →
      searchMailtoCap s = some v → fieldMatch s = some v) := by
  refine ⟨?_, ?_, ?_, ?_⟩
  · intro s v h1 h2 h3
    simp [findAndParseText, h1, h2, h3]
  · intro s v h
    simp [fieldMatch, h]
  · intro s v h1 h2
    simp [fieldMatch, h1, h2]
  · intro s v h1 h2 h3
    simp [fieldMatch, h1, h2, h3]

/-- Text of the C7 witness. -/
def w7Text : List Char := sl "xx mailto:sec@ex.io yy"

/-- Witness for the amended C7: a bare mailto URI with no contact
labels yields only the captured address. -/
theorem singleField_matcher_behavior_witness :
    findAndParseText w7Text = [("contact", String.mk (trimChars (sl "sec@ex.io")))] :=
  singleField_matcher_behavior.1 w7Text (sl "sec@ex.io") (by decide) (by decide) (by decide)

/-- C8: when no matcher and no heuristic pattern finds anything, the
extractor returns the empty mapping; an empty mapping surfaces as the
warning status, not an error; and the only errors the extraction call
can produce are the three resolution-level errors — the parse phase
itself never fails. -/
theorem no_pattern_empty_warning :
    (∀ s : List Char,
      nonEmptyCap (searchStandard s) = none → nonEmptyCap (searchDelim s) = none →
      fieldMatch s = none → heurContact s = none → hasPgpBlock s = false →
      findAndParseText s = []) ∧
    (∀ (pid : List Nat) (conn : List Nat → Option AccountInfo),
      getSecurityTxtInfo pid conn = Except.ok [] →
      getSecurityTxtHandler pid conn =
        { status := "warning", info := none,
          message := "No security.txt information found for this program" }) ∧
    (∀ (pid : List Nat) (conn : List Nat → Option AccountInfo) (e : String),
      getSecurityTxtInfo pid conn = Except.error e →
      e = "Program account not found" ∨ e = "Program data account not found" ∨
        e = "Not a valid upgradeable program account") := by
  refine ⟨?_, ?_, ?_⟩
  · intro s h1 h2 h3 h4 h5
    simp [findAndParseText, h1, h2, h3, extractSecurityInfoFromText, h4, h5]
  · intro pid conn h
    simp [getSecurityTxtHandler, h]
  · intro pid conn e h
    unfold getSecurityTxtInfo at h
    split at h
    · simp only [Except.error.injEq] at h
      subst h
      exact Or.inl rfl
    · split at h
      · split at h
        · split at h
          · simp only [Except.error.injEq] at h
            subst h
            exact Or.inr (Or.inl rfl)
          · simp at h
        · simp only [Except.error.injEq] at h
          subst h
          exact Or.inr (Or.inr rfl)
      · simp at h

/-- Text of the C8 witness. -/
def w8Text : List Char := sl "hello world"

/-- Witness for C8. -/
theorem no_pattern_empty_warning_witness :
    findAndParseText w8Text = [] :=
  no_pattern_empty_warning.1 w8Text (by decide) (by decide) (by decide) (by decide) (by decide)

/-- Text of the C9 counterexample: a disclosure-path URL of the
vulnerability shape occurring before one of the security shape. -/
def cx9Text : List Char := sl "see https://a.com/vulnerability and https://b.com/security"

/-- Counterexample to C9: within the claimed single disclosure-path
URL category, the vulnerability-shaped URL occurs first in the text
(index 4 versus 36), so the claim requires it as the contact; the
source instead tries three separate URL patterns in fixed order and
picks the security-shaped URL. -/
theorem heuristic_priority_counterexample :
    subIdx (sl "https://a.com/vulnerability") cx9Text = some 4 ∧
    subIdx (sl "https://b.com/security") cx9Text = some 36 ∧
    (4 : Nat) < 36 ∧
    findAndParseText cx9Text = [("contact", "https://b.com/security")] ∧
    ("https://b.com/security" : String) ≠ "https://a.com/vulnerability" := by
  exact ⟨by decide, by decide, by decide, by decide, by decide⟩

/-- C9 as amended: the heuristic scanner tries five patterns in fixed
source order (security-tagged emails, mailto URIs, then URLs ending
in the security, responsible-disclosure, and vulnerability paths);
the contact is the leftmost match of the first pattern that matches at
all, even when a later pattern's match occurs earlier in the text;
independently, the presence of a PGP block sets the encryption key to
the fixed sentinel (never the key material). -/
theorem heuristic_fallback_behavior :
    (∀ s : List Char, extractSecurityInfoFromText s =
      (match heurContact s with
       | some m => [("contact", String.mk m)]
       | none => ([] : SecurityInfo)) ++
      (if hasPgpBlock s then [("encryption", pgpSentinel)] else [])) ∧
    (∀ (s m : List Char), heurSecEmail s = some m → heurContact s = some m) ∧
    (∀ (s m : List Char), heurSecEmail s = none → heurMailto s = some m →
      heurContact s = some m) ∧
    (∀ (s m : List Char), heurSecEmail s = none → heurMailto s = none →
      heurUrl (sl "/security") s = some m → heurContact s = some m) ∧
    (∀ s : List Char, hasPgpBlock s = true →
      (extractSecurityInfoFromText s).lookup "encryption" = some pgpSentinel) ∧
    (∀ s : List Char, hasPgpBlock s = false →
      (extractSecurityInfoFromText s).lookup "encryption" = none) := by
  refine ⟨?_, ?_, ?_, ?_, ?_, ?_⟩
  · intro s
    cases hmc : heurContact s <;>
      cases hp : hasPgpBlock s <;>
        simp [extractSecurityInfoFromText, hmc, hp, objInsert]
  · intro s m h
    simp [heurContact, h]
  · intro s m h1 h2
    simp [heurContact, h1, h2]
  · intro s m h1 h2 h3
    simp [heurContact, h1, h2, h3]
  · intro s h
    cases hmc : heurContact s <;>
      simp [extractSecurityInfoFromText, hmc, h, objInsert, List.lookup]
  · intro s h
    cases hmc : heurContact s <;>
      simp [extractSecurityInfoFromText, hmc, h, List.lookup]

/-- Text of the C9 witness. -/
def w9Text : List Char :=
  sl "z -----BEGIN PGP PUBLIC KEY BLOCK-----k-----END PGP PUBLIC KEY BLOCK----- z"

/-- Witness for the amended C9: a PGP block sets the sentinel. -/
theorem heuristic_fallback_behavior_witness :
    (extractSecurityInfoFromText w9Text).lookup "encryption" = some pgpSentinel :=
  (heuristic_fallback_behavior.2.2.2.2.1) w9Text (by decide)

/-- C10: the standard-block header is recognized with no space or one
space between the hash and the literal (at start of text or after a
newline, case-insensitively, followed by newline or end), while two
spaces, a tab, or a mid-line hash are not recognized and the cascade
falls through to the later matchers. -/
theorem header_spacing_recognition :
    (∀ body : List Char,
      searchStandard (sl "#security.txt" ++ ('\n' :: body)) = some (captureStd body)) ∧
    (∀ body : List Char,
      searchStandard (sl "# security.txt" ++ ('\n' :: body)) = some (captureStd body)) ∧
    searchStandard (sl "xxx\n# SECURITY.TXT\nk: v") = some (sl "k: v") ∧
    searchStandard (sl "xxx# security.txt\nk: v") = none ∧
    searchStandard (sl "#  security.txt\nk: v") = none ∧
    searchStandard (sl "#\tsecurity.txt\nk: v") = none ∧
    findAndParseText (sl "#  security.txt\ncontact: a@b.cc") = [("contact", "a@b.cc")] := by
  refine ⟨?_, ?_, by decide, by decide, by decide, by decide, by decide⟩
  · intro body
    rfl
  · intro body
    rfl

/-- The blank-line terminator of the standard block's lazy capture. -/
def nlNl : List Char := ['\n', '\n']

/-- The newline-hash terminator of the standard block's lazy capture,
also the shape a header needs after a newline. -/
def nlHash : List Char := ['\n', '#']

/-- Stripping a literal from itself followed by anything succeeds. -/
theorem stripPreCI_self_append (p r : List Char) : stripPreCI p (p ++ r) = some r := by
  induction p with
  | nil => rfl
  | cons a ps ih => simp [stripPreCI, ih]

/-- A header match needs a hash mark first. -/
theorem matchHeaderAt_ne_hash (l : List Char) (h : l.head? ≠ some '#') :
    matchHeaderAt l = none := by
  cases l with
  | nil => rfl
  | cons c rest =>
    have hc : c ≠ '#' := by
      intro hh
      exact h (by rw [hh]; rfl)
    simp [matchHeaderAt, hc]

/-- Where no newline is followed by a hash mark, the newline scan of
the standard-block search finds nothing. -/
theorem searchNl_none (l : List Char) (h : occursSub nlHash l = false) :
    searchNl l = none := by
  induction l with
  | nil => rfl
  | cons c rest ih =>
    rw [occursSub, Bool.or_eq_false_iff] at h
    by_cases hc : c = '\n'
    · subst hc
      have hhd : rest.head? ≠ some '#' := by
        intro hh
        cases rest with
        | nil => simp at hh
        | cons d r2 =>
          have hd : d = '#' := by simpa using hh
          subst hd
          have hv : (stripPre nlHash ('\n' :: '#' :: r2)).isSome = true := by
            simp [nlHash, stripPre]
          rw [hv] at h
          simp at h
      simp [searchNl, matchHeaderAt_ne_hash rest hhd, ih h.2]
    · simp [searchNl, hc, ih h.2]

/-- Content without a blank line and without a newline-hash is
captured whole by the lazy capture. -/
theorem captureStd_full (c : List Char)
    (h1 : occursSub nlNl c = false) (h2 : occursSub nlHash c = false) :
    captureStd c = c := by
  induction c with
  | nil => rfl
  | cons a rest ih =>
    rw [occursSub, Bool.or_eq_false_iff] at h1 h2
    by_cases ha : a = '\n'
    · subst ha
      cases rest with
      | nil => simp [captureStd]
      | cons b r2 =>
        have hb1 : b ≠ '\n' := by
          intro hb; subst hb
          have hv : (stripPre nlNl ('\n' :: '\n' :: r2)).isSome = true := by
            simp [nlNl, stripPre]
          rw [hv] at h1
          simp at h1
        have hb2 : b ≠ '#' := by
          intro hb; subst hb
          have hv : (stripPre nlHash ('\n' :: '#' :: r2)).isSome = true := by
            simp [nlHash, stripPre]
          rw [hv] at h2
          simp at h2
        have hor : ¬(b = '\n' ∨ b = '#') := by
          intro hv
          cases hv with
          | inl v => exact hb1 v
          | inr v => exact hb2 v
        have hstep : captureStd ('\n' :: b :: r2) = '\n' :: captureStd (b :: r2) := by
          rw [captureStd]
          simp [hor]
        rw [hstep, ih h1.2 h2.2]
    · simp [captureStd, ha, ih h1.2 h2.2]

/-- Prepending newline-free text does not change whether a
newline-hash occurs. -/
theorem occursSub_nlHash_append (x y : List Char)
    (hx : ∀ a ∈ x, a ≠ '\n') :
    occursSub nlHash (x ++ y) = occursSub nlHash y := by
  induction x with
  | nil => rfl
  | cons a xs ih =>
    have ha : ('\n' : Char) ≠ a := Ne.symm (hx a (by simp))
    have hstrip : (stripPre nlHash (a :: (xs ++ y))).isSome = false := by
      simp [nlHash, stripPre, ha]
    rw [List.cons_append, occursSub, hstrip, Bool.false_or]
    exact ih (fun b hb => hx b (by simp [hb]))

/-- Appending the end marker to newline-hash-free content keeps it
newline-hash-free (the marker starts with a dash). -/
theorem occursSub_nlHash_before_end (c : List Char)
    (h : occursSub nlHash c = false) :
    occursSub nlHash (c ++ endMark) = false := by
  induction c with
  | nil => decide
  | cons a cs ih =>
    rw [occursSub, Bool.or_eq_false_iff] at h
    rw [List.cons_append, occursSub, Bool.or_eq_false_iff]
    refine ⟨?_, ih h.2⟩
    by_cases ha : a = '\n'
    · subst ha
      cases cs with
      | nil => decide
      | cons b r2 =>
        have hb : ('#' : Char) ≠ b := by
          intro hb
          have hb' : b = '#' := hb.symm
          subst hb'
          have hv : (stripPre nlHash ('\n' :: '#' :: r2)).isSome = true := by
            simp [nlHash, stripPre]
          rw [hv] at h
          simp at h
        simp [nlHash, stripPre, hb]
    · have ha' : ('\n' : Char) ≠ a := Ne.symm ha
      simp [nlHash, stripPre, ha']

/-- No occurrence of the end marker begins inside the content: every
nonempty suffix of the content, extended by the marker itself, fails
to start with the marker. -/
def noEndAcross : List Char → Bool
  | [] => true
  | c :: rest => !(stripPreCI endMark ((c :: rest) ++ endMark)).isSome && noEndAcross rest

/-- Under `noEndAcross`, the lazy capture of the delimited block stops
exactly at the appended end marker. -/
theorem captureUntilCI_append_end (c : List Char) (h : noEndAcross c = true) :
    captureUntilCI endMark (c ++ endMark) = some c := by
  induction c with
  | nil => decide
  | cons a cs ih =>
    simp only [noEndAcross, Bool.and_eq_true, Bool.not_eq_true',
      List.cons_append] at h
    rw [List.cons_append, captureUntilCI]
    simp [h.1, ih h.2]

/-- The delimited-block search on text starting with the begin marker
returns the lazy capture of the remainder. -/
theorem searchDelim_front (x cap : List Char)
    (h : captureUntilCI endMark x = some cap) :
    searchDelim (beginMark ++ x) = some cap := by
  have e2 : stripPreCI beginMark ('-' :: (sl "----BEGIN SECURITY.TXT-----" ++ x)) = some x :=
    stripPreCI_self_append beginMark x
  show searchDelim ('-' :: (sl "----BEGIN SECURITY.TXT-----" ++ x)) = some cap
  rw [searchDelim, e2]
  simp [h]

/-- Content of the C6 counterexample: a block body containing a blank
line. -/
def cx6Content : List Char := sl "contact: a\n\nexpires: b"

/-- Counterexample to C6: embedding the same content in the standard
form and in the delimited form yields different mappings, because the
standard block's capture stops at the blank line while the delimited
block's capture runs to the end marker. -/
theorem blockForms_mismatch_counterexample :
    findAndParseText (sl "# security.txt\n" ++ cx6Content) = [("contact", "a")] ∧
    findAndParseText (beginMark ++ (cx6Content ++ endMark)) =
      [("contact", "a"), ("expires", "b")] ∧
    ([("contact", "a")] : SecurityInfo) ≠ [("contact", "a"), ("expires", "b")] := by
  exact ⟨by decide, by decide, by decide⟩

/-- C6 as amended: the two embeddings of one block content normalize
to the same mapping provided the content is nonempty, contains no
blank line and no newline-hash sequence (which would cut the standard
capture short or introduce a header), and no end-marker occurrence
begins inside the content. -/
theorem blockForms_equivalence (c : List Char)
    (h0 : c ≠ []) (h1 : occursSub nlNl c = false) (h2 : occursSub nlHash c = false)
    (h3 : noEndAcross c = true) :
    findAndParseText (sl "# security.txt\n" ++ c) = parseSecurityTxt c ∧
    findAndParseText (beginMark ++ (c ++ endMark)) = parseSecurityTxt c := by
  constructor
  · have hs : searchStandard (sl "# security.txt\n" ++ c) = some (captureStd c) := rfl
    rw [captureStd_full c h1 h2] at hs
    simp [findAndParseText, hs, nonEmptyCap_some c h0]
  · have hh : matchHeaderAt (beginMark ++ (c ++ endMark)) = none := by
      apply matchHeaderAt_ne_hash
      have hv : (beginMark ++ (c ++ endMark)).head? = some '-' := rfl
      rw [hv]
      simp
    have hno : occursSub nlHash (beginMark ++ (c ++ endMark)) = false := by
      rw [occursSub_nlHash_append beginMark (c ++ endMark) (by decide)]
      exact occursSub_nlHash_before_end c h2
    have hstd : searchStandard (beginMark ++ (c ++ endMark)) = none := by
      rw [searchStandard, hh]
      exact searchNl_none _ hno
    have hdel : searchDelim (beginMark ++ (c ++ endMark)) = some c :=
      searchDelim_front (c ++ endMark) c (captureUntilCI_append_end c h3)
    have hnone : nonEmptyCap (none : Option (List Char)) = none := rfl
    simp [findAndParseText, hstd, hdel, hnone, nonEmptyCap_some c h0]

/-- Content of the C6 witness. -/
def w6Content : List Char := sl "contact: a\nexpires: b"

/-- Witness for the amended C6. -/
theorem blockForms_equivalence_witness :
    findAndParseText (sl "# security.txt\n" ++ w6Content) = parseSecurityTxt w6Content ∧
    findAndParseText (beginMark ++ (w6Content ++ endMark)) = parseSecurityTxt w6Content :=
  blockForms_equivalence w6Content (by decide) (by decide) (by decide) (by decide)
